import Mathlib

/-!
Shallow embedding of the generic WinRT collection adapter in
`source/uwp/Renderer/Vector2.h` (namespace `borrowed`): the
exception-to-HRESULT boundary, the default element/vector traits over an
STL vector (modelled as a `List`), the `Vector` runtime class with its
`isFixedSize` / `isChanged` flags, and the `VectorIterator` cursor.

Modelling conventions:
* HRESULT values are an enumeration of the statuses the code uses.
* A thrown C++ exception is a `CppException` value; function bodies
  return the final state (including every out-parameter variable as it
  stands at the moment of the throw, since C++ writes are not rolled
  back) together with `Option CppException`.
* Out-parameters: each boundary method takes the prior ("stale")
  contents of the caller-side variable and returns its final contents.  Pointers are
  modelled as valid (non-null); the `CheckInPointer` null-argument path
  is outside the model.
* `unsigned` quantities are `Nat`; `(unsigned)vector.size()` is the
  identity on every size below 2^32, the range reachable here, so
  `GetSize` is `List.length`.  The one place 32-bit wraparound is
  observable — the `GetSize(mVector) - 1` expression in `RemoveAtEnd`
  evaluated at size 0 — is modelled with an explicit `% 2^32`.
* Element traits are the default value-type specialization of
  `ElementTraits` (`Wrap`/`Unwrap` are the identity, `Equals` is `==`);
  the model is generic over the element type `T`.
-/

namespace borrowed

/-- HRESULT status codes used by Vector2.h. -/
inductive HResult where
  | S_OK
  | E_BOUNDS
  | E_NOTIMPL
  | E_INVALIDARG
  | E_OUTOFMEMORY
  | E_UNEXPECTED
  deriving DecidableEq

/-- A thrown C++ exception: an `HResultException` carrying an HRESULT
(thrown by `ThrowHR`), a `std::bad_alloc` (thrown by `ThrowBadAlloc`
when `Make<>` fails), or anything else. -/
inductive CppException where
  | hres (hr : HResult)
  | badAlloc
  | other

/-- Embeds `ThrownExceptionToHResult`: catch `HResultException` → its HRESULT;
`std::bad_alloc` → `E_OUTOFMEMORY`; `...` → `E_UNEXPECTED`. -/
def ThrownExceptionToHResult : CppException → HResult
  | .hres hr => hr
  | .badAlloc => .E_OUTOFMEMORY
  | .other => .E_UNEXPECTED

/-- Embeds `ExceptionBoundary(fn)`: runs the body; if it completes, returns
`S_OK`, otherwise translates the escaping exception via
`ThrownExceptionToHResult`.  The argument is the outcome of the body: final
state `s` (mutations made before a throw persist) and the exception, if
one escaped. -/
def ExceptionBoundary {σ : Type} (run : σ × Option CppException) : HResult × σ :=
  match run with
  | (s, none) => (.S_OK, s)
  | (s, some e) => (ThrownExceptionToHResult e, s)

namespace ElementTraits

/-- Default (value type) `ElementTraits<T>::Wrap`: identity. -/
def Wrap {T : Type} (value : T) : T :=
  value

/-- Default `ElementTraits<T>::Unwrap`: `*result = value`. -/
def Unwrap {T : Type} (value : T) : T :=
  value

/-- Default `ElementTraits<T>::Equals`: `value1 == value2`. -/
def Equals {T : Type} [DecidableEq T] (value1 value2 : T) : Bool :=
  decide (value1 = value2)

end ElementTraits

namespace DefaultVectorTraits

/-- Embeds `DefaultVectorTraits::GetSize`: `(unsigned)vector.size()` (identity
below 2^32; see header comment). -/
def GetSize {T : Type} (vector : List T) : Nat :=
  vector.length

/-- Embeds `DefaultVectorTraits::GetAt`: throws `E_BOUNDS` if
`index >= vector.size()`, else returns `vector[index]`. -/
def GetAt {T : Type} (vector : List T) (index : Nat) : Except CppException T :=
  if h : index ≥ vector.length then .error (.hres .E_BOUNDS)
  else .ok (vector.get ⟨index, Nat.lt_of_not_le h⟩)

/-- Embeds `DefaultVectorTraits::SetAt`: throws `E_BOUNDS` if
`index >= vector.size()`, else `vector[index] = Wrap(item)`. -/
def SetAt {T : Type} (vector : List T) (index : Nat) (item : T) :
    Except CppException (List T) :=
  if index ≥ vector.length then .error (.hres .E_BOUNDS)
  else .ok (vector.set index (ElementTraits.Wrap item))

/-- Embeds `DefaultVectorTraits::InsertAt`: throws `E_BOUNDS` if
`index > vector.size()`, else `vector.insert(begin + index, Wrap(item))`. -/
def InsertAt {T : Type} (vector : List T) (index : Nat) (item : T) :
    Except CppException (List T) :=
  if index > vector.length then .error (.hres .E_BOUNDS)
  else .ok (vector.take index ++ ElementTraits.Wrap item :: vector.drop index)

/-- Embeds `DefaultVectorTraits::RemoveAt`: throws `E_BOUNDS` if
`index >= vector.size()`, else `vector.erase(begin + index)`. -/
def RemoveAt {T : Type} (vector : List T) (index : Nat) :
    Except CppException (List T) :=
  if index ≥ vector.length then .error (.hres .E_BOUNDS)
  else .ok (vector.take index ++ vector.drop (index + 1))

/-- Embeds `DefaultVectorTraits::Append`: `vector.push_back(Wrap(item))`. -/
def Append {T : Type} (vector : List T) (item : T) : List T :=
  vector ++ [ElementTraits.Wrap item]

/-- Embeds `DefaultVectorTraits::Clear`: `vector.clear()`. -/
def Clear {T : Type} (vector : List T) : List T :=
  []

end DefaultVectorTraits

/-- The state of a `Vector<T>` instance: the internal STL vector and the
two flags. -/
structure Vector (T : Type) where
  mVector : List T
  isFixedSize : Bool
  isChanged : Bool

/-- Unsigned 32-bit decrement, as in the expression
`Traits::GetSize(mVector) - 1` of `RemoveAtEnd`: on a `unsigned` of
value 0 the subtraction wraps to `2^32 - 1`. -/
def usub1 (n : Nat) : Nat :=
  (n + 4294967295) % 4294967296

namespace Vector

/-- Embeds `Vector::get_Size`: `*size = Traits::GetSize(mVector)`; the body
cannot throw (with a valid out-pointer). -/
def get_Size {T : Type} (s : Vector T) (sizeOut : Nat) :
    HResult × Vector T × Nat :=
  ExceptionBoundary ((s, DefaultVectorTraits.GetSize s.mVector), none)

/-- Embeds `Vector::GetAt`: zeroes `*item` (`ZeroMemory`), then
`Traits::Unwrap(Traits::GetAt(mVector, index), item)`.  `zeroV` is the
all-zero bit pattern of `T`; `itemOut` holds the stale prior contents of
the caller variable. -/
def GetAt {T : Type} (zeroV : T) (s : Vector T) (index : Nat) (itemOut : T) :
    HResult × Vector T × T :=
  match DefaultVectorTraits.GetAt s.mVector index with
  | .error e => ExceptionBoundary ((s, zeroV), some e)
  | .ok v => ExceptionBoundary ((s, ElementTraits.Unwrap v), none)

/-- The `for (unsigned i = 0; i < size; i++)` scan of `Vector::IndexOf`:
first element (from `i` on) with `Traits::Equals(element, value)` wins;
`*index`/`*found` keep their initial `0`/`false` if no element matches. -/
def IndexOfLoop {T : Type} [DecidableEq T] (value : T) :
    List T → Nat → Nat × Bool
  | [], _ => (0, false)
  | x :: xs, i =>
    if ElementTraits.Equals x value then (i, true) else IndexOfLoop value xs (i + 1)

/-- Embeds `Vector::IndexOf`: sets `*index = 0`, `*found = false`, then scans;
the body cannot throw for value-type element traits. -/
def IndexOf {T : Type} [DecidableEq T] (s : Vector T) (value : T)
    (indexOut : Nat) (foundOut : Bool) : HResult × Vector T × Nat × Bool :=
  ExceptionBoundary ((s, IndexOfLoop value s.mVector 0), none)

/-- Embeds `Vector::SetAt`: `Traits::SetAt(mVector, index, item); isChanged = true;`
(no fixed-size check). -/
def SetAt {T : Type} (s : Vector T) (index : Nat) (item : T) :
    HResult × Vector T :=
  match DefaultVectorTraits.SetAt s.mVector index item with
  | .error e => ExceptionBoundary (s, some e)
  | .ok v => ExceptionBoundary ({ s with mVector := v, isChanged := true }, none)

/-- Embeds `Vector::InsertAt`: `E_NOTIMPL` if fixed-size, else
`Traits::InsertAt(mVector, index, item); isChanged = true;`. -/
def InsertAt {T : Type} (s : Vector T) (index : Nat) (item : T) :
    HResult × Vector T :=
  if s.isFixedSize then ExceptionBoundary (s, some (.hres .E_NOTIMPL))
  else
    match DefaultVectorTraits.InsertAt s.mVector index item with
    | .error e => ExceptionBoundary (s, some e)
    | .ok v => ExceptionBoundary ({ s with mVector := v, isChanged := true }, none)

/-- Embeds `Vector::RemoveAt`: `E_NOTIMPL` if fixed-size, else
`Traits::RemoveAt(mVector, index); isChanged = true;`. -/
def RemoveAt {T : Type} (s : Vector T) (index : Nat) : HResult × Vector T :=
  if s.isFixedSize then ExceptionBoundary (s, some (.hres .E_NOTIMPL))
  else
    match DefaultVectorTraits.RemoveAt s.mVector index with
    | .error e => ExceptionBoundary (s, some e)
    | .ok v => ExceptionBoundary ({ s with mVector := v, isChanged := true }, none)

/-- Embeds `Vector::Append`: `E_NOTIMPL` if fixed-size, else
`Traits::Append(mVector, item); isChanged = true;`. -/
def Append {T : Type} (s : Vector T) (item : T) : HResult × Vector T :=
  if s.isFixedSize then ExceptionBoundary (s, some (.hres .E_NOTIMPL))
  else
    ExceptionBoundary
      ({ s with mVector := DefaultVectorTraits.Append s.mVector item,
                isChanged := true }, none)

/-- Embeds `Vector::RemoveAtEnd`: `E_NOTIMPL` if fixed-size, else
`Traits::RemoveAt(mVector, Traits::GetSize(mVector) - 1)` (unsigned
subtraction) and `isChanged = true`. -/
def RemoveAtEnd {T : Type} (s : Vector T) : HResult × Vector T :=
  if s.isFixedSize then ExceptionBoundary (s, some (.hres .E_NOTIMPL))
  else
    match DefaultVectorTraits.RemoveAt s.mVector
        (usub1 (DefaultVectorTraits.GetSize s.mVector)) with
    | .error e => ExceptionBoundary (s, some e)
    | .ok v => ExceptionBoundary ({ s with mVector := v, isChanged := true }, none)

/-- Embeds `Vector::Clear`: `E_NOTIMPL` if fixed-size, else
`Traits::Clear(mVector); isChanged = true;`. -/
def Clear {T : Type} (s : Vector T) : HResult × Vector T :=
  if s.isFixedSize then ExceptionBoundary (s, some (.hres .E_NOTIMPL))
  else
    ExceptionBoundary
      ({ s with mVector := DefaultVectorTraits.Clear s.mVector,
                isChanged := true }, none)

/-- The `count == size` branch loop of `Vector::ReplaceAll`:
`for (i = 0; i < count; i++) Traits::SetAt(mVector, i, value[i])`.
First argument of the recursion is the number of remaining iterations;
on a throw the writes already made persist. -/
def ReplaceAllSetLoop {T : Type} (values : Nat → T) :
    Nat → Nat → List T → List T × Option CppException
  | 0, _, v => (v, none)
  | rem + 1, i, v =>
    match DefaultVectorTraits.SetAt v i (values i) with
    | .error e => (v, some e)
    | .ok v2 => ReplaceAllSetLoop values rem (i + 1) v2

/-- The `count != size` branch loop of `Vector::ReplaceAll`:
`for (i = 0; i < count; i++) Traits::Append(mVector, value[i])`. -/
def ReplaceAllAppendLoop {T : Type} (values : Nat → T) :
    Nat → Nat → List T → List T
  | 0, _, v => v
  | rem + 1, i, v =>
    ReplaceAllAppendLoop values rem (i + 1) (DefaultVectorTraits.Append v (values i))

/-- Embeds `Vector::ReplaceAll(count, value)`: if `count == Traits::GetSize`,
set each of the `count` slots in place; otherwise `E_NOTIMPL` when
fixed-size, else clear and append all `count` values; then
`isChanged = true`.  The C array `value` (readable up to `count`) is
`values : Nat → T`. -/
def ReplaceAll {T : Type} (s : Vector T) (count : Nat) (values : Nat → T) :
    HResult × Vector T :=
  if count = DefaultVectorTraits.GetSize s.mVector then
    match ReplaceAllSetLoop values count 0 s.mVector with
    | (v, some e) => ExceptionBoundary ({ s with mVector := v }, some e)
    | (v, none) => ExceptionBoundary ({ s with mVector := v, isChanged := true }, none)
  else if s.isFixedSize then ExceptionBoundary (s, some (.hres .E_NOTIMPL))
  else
    ExceptionBoundary
      ({ s with
          mVector :=
            ReplaceAllAppendLoop values count 0 (DefaultVectorTraits.Clear s.mVector),
          isChanged := true }, none)

/-- Embeds `Vector::GetView`: `CheckAndClearOutPointer(view)` nulls `*view`;
`Make<VectorView>` may fail allocation (`CheckMakeResult` then throws
`bad_alloc`), else `*view` receives the new view handle (modelled as
`some ()`; the view shares the live vector, which stays `s`). -/
def GetView {T : Type} (s : Vector T) (allocFails : Bool)
    (viewOut : Option Unit) : HResult × Vector T × Option Unit :=
  if allocFails then ExceptionBoundary ((s, (none : Option Unit)), some .badAlloc)
  else ExceptionBoundary ((s, some ()), none)

/-- Embeds `Vector::First`: `CheckAndClearOutPointer(first)` nulls `*first`;
`Make<VectorIterator>` may fail allocation, else `*first` receives a new
iterator whose `mPosition` is 0 (the handle is modelled as
`some mPosition`). -/
def First {T : Type} (s : Vector T) (allocFails : Bool)
    (firstOut : Option Nat) : HResult × Vector T × Option Nat :=
  if allocFails then ExceptionBoundary ((s, (none : Option Nat)), some .badAlloc)
  else ExceptionBoundary ((s, some 0), none)

end Vector

namespace VectorIterator

/-- Embeds `VectorIterator::get_Current`: forwards to
`mVector->GetAt(mPosition, current)` on the live vector. -/
def get_Current {T : Type} (zeroV : T) (s : Vector T) (mPosition : Nat)
    (currentOut : T) : HResult × Vector T × T :=
  Vector.GetAt zeroV s mPosition currentOut

/-- Embeds `VectorIterator::get_HasCurrent`:
`*hasCurrent = (mPosition < Traits::GetSize(mVector->InternalVector()))`,
reading the live vector; cannot throw (with a valid out-pointer). -/
def get_HasCurrent {T : Type} (s : Vector T) (mPosition : Nat)
    (hasCurrentOut : Bool) : HResult × Bool :=
  ExceptionBoundary
    ((decide (mPosition < DefaultVectorTraits.GetSize s.mVector) : Bool), none)

/-- Embeds `VectorIterator::MoveNext`: reads the live size; throws `E_BOUNDS`
if `mPosition >= size` (leaving `mPosition` and `*hasCurrent` as they
were), else `mPosition++` and `*hasCurrent = (mPosition < size)`.
Returns (status, new `mPosition`, final `*hasCurrent`). -/
def MoveNext {T : Type} (s : Vector T) (mPosition : Nat)
    (hasCurrentOut : Bool) : HResult × Nat × Bool :=
  if mPosition ≥ DefaultVectorTraits.GetSize s.mVector then
    ExceptionBoundary ((mPosition, hasCurrentOut), some (.hres .E_BOUNDS))
  else
    ExceptionBoundary
      ((mPosition + 1,
        decide (mPosition + 1 < DefaultVectorTraits.GetSize s.mVector)), none)

end VectorIterator

/-! ### Helper lemmas about the `ReplaceAll` loops -/

/-- When every iteration of the `count == size` loop of `ReplaceAll` is in
bounds, the loop throws nothing, preserves the length, and overwrites
exactly the slots `i ≤ k < i + rem` with `values k`. -/
theorem ReplaceAllSetLoop_ok {T : Type} (values : Nat → T) :
    ∀ (rem i : Nat) (l : List T), i + rem ≤ l.length →
      (Vector.ReplaceAllSetLoop values rem i l).2 = none ∧
      (Vector.ReplaceAllSetLoop values rem i l).1.length = l.length ∧
      ∀ k : Nat, (Vector.ReplaceAllSetLoop values rem i l).1[k]? =
        if i ≤ k ∧ k < i + rem then some (values k) else l[k]? := by
  intro rem
  induction rem with
  | zero =>
    intro i l _
    refine ⟨rfl, rfl, ?_⟩
    intro k
    rw [if_neg (fun hc => absurd (Nat.lt_of_lt_of_le hc.2 hc.1)
      (Nat.lt_irrefl k))]
    rfl
  | succ rem ih =>
    intro i l h
    have hi : i < l.length :=
      Nat.lt_of_lt_of_le (Nat.lt_add_of_pos_right (Nat.succ_pos rem)) h
    have hset : DefaultVectorTraits.SetAt l i (values i)
        = .ok (l.set i (values i)) := by
      unfold DefaultVectorTraits.SetAt
      rw [if_neg (Nat.not_le.mpr hi)]
      rfl
    have hstep : Vector.ReplaceAllSetLoop values (rem + 1) i l
        = Vector.ReplaceAllSetLoop values rem (i + 1) (l.set i (values i)) := by
      simp only [Vector.ReplaceAllSetLoop, hset]
    rw [hstep]
    have hlen : (l.set i (values i)).length = l.length := List.length_set l i (values i)
    obtain ⟨h1, h2, h3⟩ := ih (i + 1) (l.set i (values i))
      (by rw [hlen, Nat.succ_add]; exact h)
    refine ⟨h1, by rw [h2, hlen], ?_⟩
    intro k
    rw [h3 k]
    by_cases hk : k = i
    · subst hk
      rw [if_neg (fun hc => Nat.not_succ_le_self k hc.1),
        if_pos ⟨Nat.le_refl k, Nat.lt_add_of_pos_right (Nat.succ_pos rem)⟩]
      exact List.getElem?_set_self hi
    · rw [List.getElem?_set_ne (fun he => hk he.symm)]
      by_cases hcond : i ≤ k ∧ k < i + (rem + 1)
      · rw [if_pos ⟨Nat.lt_of_le_of_ne hcond.1 (fun he => hk he.symm),
          Nat.lt_of_lt_of_eq hcond.2 (Nat.add_right_comm i 1 rem).symm⟩,
          if_pos hcond]
      · rw [if_neg (fun hc => hcond ⟨Nat.le_of_succ_le hc.1,
          Nat.lt_of_lt_of_eq hc.2 (Nat.add_right_comm i 1 rem)⟩),
          if_neg hcond]

/-- The `count != size` loop of `ReplaceAll` appends
`values i, values (i+1), …` — `rem` of them — to the buffer. -/
theorem ReplaceAllAppendLoop_eq {T : Type} (values : Nat → T) :
    ∀ (rem i : Nat) (l : List T),
      Vector.ReplaceAllAppendLoop values rem i l
        = l ++ (List.range rem).map (fun k => values (i + k)) := by
  intro rem
  induction rem with
  | zero =>
    intro i l
    exact (List.append_nil l).symm
  | succ rem ih =>
    intro i l
    have hstep : Vector.ReplaceAllAppendLoop values (rem + 1) i l
        = Vector.ReplaceAllAppendLoop values rem (i + 1)
            (l ++ [values i]) := by
      conv_lhs => unfold Vector.ReplaceAllAppendLoop
      rfl
    rw [hstep, ih, List.range_succ_eq_map, List.map_cons, List.map_map]
    have hfun : (fun k => values (i + k)) ∘ Nat.succ
        = fun k => values (i + 1 + k) := by
      funext k
      show values (i + (k + 1)) = values (i + 1 + k)
      exact congrArg values (Nat.add_right_comm i 1 k).symm
    rw [hfun, List.append_assoc, List.singleton_append]
    exact congrArg (fun t => l ++ values t
      :: List.map (fun k => values (i + 1 + k)) (List.range rem))
      (Nat.add_zero i).symm

/-! ### Characterization lemmas: each boundary method as an explicit
case split on its source-level conditions -/

theorem get_Size_eq {T : Type} (s : Vector T) (sizeOut : Nat) :
    Vector.get_Size s sizeOut = (.S_OK, s, s.mVector.length) := rfl

theorem GetAt_eq {T : Type} (zeroV : T) (s : Vector T) (index : Nat) (itemOut : T) :
    Vector.GetAt zeroV s index itemOut =
      if h : index < s.mVector.length then (.S_OK, s, s.mVector.get ⟨index, h⟩)
      else (.E_BOUNDS, s, zeroV) := by
  by_cases h : index < s.mVector.length <;>
    simp [Vector.GetAt, DefaultVectorTraits.GetAt, ElementTraits.Unwrap, h,
      Nat.not_lt.mp, Nat.not_le.mpr, ExceptionBoundary, ThrownExceptionToHResult,
      Nat.not_lt.mpr, Nat.lt_irrefl, dif_pos, dif_neg, Nat.not_le, Nat.not_lt]

theorem IndexOf_eq {T : Type} [DecidableEq T] (s : Vector T) (value : T)
    (indexOut : Nat) (foundOut : Bool) :
    Vector.IndexOf s value indexOut foundOut
      = (.S_OK, s, Vector.IndexOfLoop value s.mVector 0) := rfl

theorem SetAt_eq {T : Type} (s : Vector T) (index : Nat) (item : T) :
    Vector.SetAt s index item =
      if index ≥ s.mVector.length then (.E_BOUNDS, s)
      else (.S_OK, { s with mVector := s.mVector.set index item,
                            isChanged := true }) := by
  by_cases h : index ≥ s.mVector.length <;>
    simp [Vector.SetAt, DefaultVectorTraits.SetAt, ElementTraits.Wrap, h,
      ExceptionBoundary, ThrownExceptionToHResult]

theorem InsertAt_eq {T : Type} (s : Vector T) (index : Nat) (item : T) :
    Vector.InsertAt s index item =
      if s.isFixedSize then (.E_NOTIMPL, s)
      else if index > s.mVector.length then (.E_BOUNDS, s)
      else (.S_OK, { s with
        mVector := s.mVector.take index ++ item :: s.mVector.drop index,
        isChanged := true }) := by
  by_cases hfs : s.isFixedSize
  · simp [Vector.InsertAt, hfs, ExceptionBoundary, ThrownExceptionToHResult]
  · by_cases h : index > s.mVector.length <;>
      simp [Vector.InsertAt, DefaultVectorTraits.InsertAt, ElementTraits.Wrap,
        hfs, h, ExceptionBoundary, ThrownExceptionToHResult]

theorem RemoveAt_eq {T : Type} (s : Vector T) (index : Nat) :
    Vector.RemoveAt s index =
      if s.isFixedSize then (.E_NOTIMPL, s)
      else if index ≥ s.mVector.length then (.E_BOUNDS, s)
      else (.S_OK, { s with
        mVector := s.mVector.take index ++ s.mVector.drop (index + 1),
        isChanged := true }) := by
  by_cases hfs : s.isFixedSize
  · simp [Vector.RemoveAt, hfs, ExceptionBoundary, ThrownExceptionToHResult]
  · by_cases h : index ≥ s.mVector.length <;>
      simp [Vector.RemoveAt, DefaultVectorTraits.RemoveAt,
        hfs, h, ExceptionBoundary, ThrownExceptionToHResult]

theorem Append_eq {T : Type} (s : Vector T) (item : T) :
    Vector.Append s item =
      if s.isFixedSize then (.E_NOTIMPL, s)
      else (.S_OK, { s with mVector := s.mVector ++ [item],
                            isChanged := true }) := by
  by_cases hfs : s.isFixedSize <;>
    simp [Vector.Append, DefaultVectorTraits.Append, ElementTraits.Wrap, hfs,
      ExceptionBoundary, ThrownExceptionToHResult]

theorem RemoveAtEnd_eq {T : Type} (s : Vector T) :
    Vector.RemoveAtEnd s =
      if s.isFixedSize then (.E_NOTIMPL, s)
      else if usub1 s.mVector.length ≥ s.mVector.length then (.E_BOUNDS, s)
      else (.S_OK, { s with
        mVector := s.mVector.take (usub1 s.mVector.length)
          ++ s.mVector.drop (usub1 s.mVector.length + 1),
        isChanged := true }) := by
  by_cases hfs : s.isFixedSize
  · simp [Vector.RemoveAtEnd, hfs, ExceptionBoundary, ThrownExceptionToHResult]
  · by_cases h : usub1 s.mVector.length ≥ s.mVector.length <;>
      simp [Vector.RemoveAtEnd, DefaultVectorTraits.RemoveAt,
        DefaultVectorTraits.GetSize, hfs, h, ExceptionBoundary,
        ThrownExceptionToHResult]

theorem Clear_eq {T : Type} (s : Vector T) :
    Vector.Clear s =
      if s.isFixedSize then (.E_NOTIMPL, s)
      else (.S_OK, { s with mVector := [], isChanged := true }) := by
  by_cases hfs : s.isFixedSize <;>
    simp [Vector.Clear, DefaultVectorTraits.Clear, hfs,
      ExceptionBoundary, ThrownExceptionToHResult]

theorem ReplaceAll_eq_count_eq {T : Type} (s : Vector T) (count : Nat)
    (values : Nat → T) (hc : count = s.mVector.length) :
    Vector.ReplaceAll s count values
      = (.S_OK, { s with
          mVector := (Vector.ReplaceAllSetLoop values count 0 s.mVector).1,
          isChanged := true }) := by
  obtain ⟨h1, _, _⟩ := ReplaceAllSetLoop_ok values count 0 s.mVector
    (by rw [Nat.zero_add]; exact Nat.le_of_eq hc)
  have hloop : Vector.ReplaceAllSetLoop values count 0 s.mVector
      = ((Vector.ReplaceAllSetLoop values count 0 s.mVector).1, none) := by
    rw [← h1]
  unfold Vector.ReplaceAll
  rw [if_pos (show count = DefaultVectorTraits.GetSize s.mVector from hc), hloop]
  rfl

theorem ReplaceAll_eq_fixed {T : Type} (s : Vector T) (count : Nat)
    (values : Nat → T) (hc : count ≠ s.mVector.length)
    (hfs : s.isFixedSize = true) :
    Vector.ReplaceAll s count values = (.E_NOTIMPL, s) := by
  unfold Vector.ReplaceAll
  rw [if_neg (show ¬ count = DefaultVectorTraits.GetSize s.mVector from hc),
    if_pos hfs]
  rfl

theorem ReplaceAll_eq_resize {T : Type} (s : Vector T) (count : Nat)
    (values : Nat → T) (hc : count ≠ s.mVector.length)
    (hfs : s.isFixedSize = false) :
    Vector.ReplaceAll s count values
      = (.S_OK, { s with mVector := (List.range count).map values,
                         isChanged := true }) := by
  unfold Vector.ReplaceAll
  rw [if_neg (show ¬ count = DefaultVectorTraits.GetSize s.mVector from hc),
    hfs, if_neg Bool.false_ne_true,
    show DefaultVectorTraits.Clear s.mVector = [] from rfl,
    ReplaceAllAppendLoop_eq values count 0 []]
  show (HResult.S_OK, _) = _
  rw [List.nil_append,
    show ((List.range count).map fun k => values (0 + k))
        = (List.range count).map values from by
      apply List.map_congr_left
      intro a _
      rw [Nat.zero_add]]

theorem GetView_eq {T : Type} (s : Vector T) (allocFails : Bool)
    (viewOut : Option Unit) :
    Vector.GetView s allocFails viewOut =
      if allocFails then (.E_OUTOFMEMORY, s, none) else (.S_OK, s, some ()) := by
  by_cases h : allocFails <;>
    simp [Vector.GetView, h, ExceptionBoundary, ThrownExceptionToHResult]

theorem First_eq {T : Type} (s : Vector T) (allocFails : Bool)
    (firstOut : Option Nat) :
    Vector.First s allocFails firstOut =
      if allocFails then (.E_OUTOFMEMORY, s, none) else (.S_OK, s, some 0) := by
  by_cases h : allocFails <;>
    simp [Vector.First, h, ExceptionBoundary, ThrownExceptionToHResult]

theorem get_HasCurrent_eq {T : Type} (s : Vector T) (mPosition : Nat)
    (hasCurrentOut : Bool) :
    VectorIterator.get_HasCurrent s mPosition hasCurrentOut
      = (.S_OK, decide (mPosition < s.mVector.length)) := rfl

theorem MoveNext_eq {T : Type} (s : Vector T) (mPosition : Nat)
    (hasCurrentOut : Bool) :
    VectorIterator.MoveNext s mPosition hasCurrentOut =
      if mPosition ≥ s.mVector.length then (.E_BOUNDS, mPosition, hasCurrentOut)
      else (.S_OK, mPosition + 1, decide (mPosition + 1 < s.mVector.length)) := by
  by_cases h : mPosition ≥ s.mVector.length <;>
    simp [VectorIterator.MoveNext, DefaultVectorTraits.GetSize, h,
      ExceptionBoundary, ThrownExceptionToHResult]

/-! ### Per-branch corollaries of the characterization lemmas -/

theorem not_fixed {T : Type} (s : Vector T) (h : s.isFixedSize = false) :
    ¬ s.isFixedSize = true := by
  rw [h]
  exact Bool.false_ne_true

theorem SetAt_oob {T : Type} (s : Vector T) (index : Nat) (item : T)
    (h : index ≥ s.mVector.length) :
    Vector.SetAt s index item = (.E_BOUNDS, s) := by
  rw [SetAt_eq, if_pos h]

theorem SetAt_ok {T : Type} (s : Vector T) (index : Nat) (item : T)
    (h : index < s.mVector.length) :
    Vector.SetAt s index item
      = (.S_OK, { s with mVector := s.mVector.set index item,
                         isChanged := true }) := by
  rw [SetAt_eq, if_neg (Nat.not_le.mpr h)]

theorem InsertAt_fixed {T : Type} (s : Vector T) (index : Nat) (item : T)
    (hfs : s.isFixedSize = true) :
    Vector.InsertAt s index item = (.E_NOTIMPL, s) := by
  rw [InsertAt_eq, if_pos hfs]

theorem InsertAt_oob {T : Type} (s : Vector T) (index : Nat) (item : T)
    (hfs : ¬ s.isFixedSize = true) (h : index > s.mVector.length) :
    Vector.InsertAt s index item = (.E_BOUNDS, s) := by
  rw [InsertAt_eq, if_neg hfs, if_pos h]

theorem InsertAt_ok {T : Type} (s : Vector T) (index : Nat) (item : T)
    (hfs : ¬ s.isFixedSize = true) (h : index ≤ s.mVector.length) :
    Vector.InsertAt s index item
      = (.S_OK, { s with
          mVector := s.mVector.take index ++ item :: s.mVector.drop index,
          isChanged := true }) := by
  rw [InsertAt_eq, if_neg hfs, if_neg (Nat.not_lt.mpr h)]

theorem RemoveAt_fixed {T : Type} (s : Vector T) (index : Nat)
    (hfs : s.isFixedSize = true) :
    Vector.RemoveAt s index = (.E_NOTIMPL, s) := by
  rw [RemoveAt_eq, if_pos hfs]

theorem RemoveAt_oob {T : Type} (s : Vector T) (index : Nat)
    (hfs : ¬ s.isFixedSize = true) (h : index ≥ s.mVector.length) :
    Vector.RemoveAt s index = (.E_BOUNDS, s) := by
  rw [RemoveAt_eq, if_neg hfs, if_pos h]

theorem RemoveAt_ok {T : Type} (s : Vector T) (index : Nat)
    (hfs : ¬ s.isFixedSize = true) (h : index < s.mVector.length) :
    Vector.RemoveAt s index
      = (.S_OK, { s with
          mVector := s.mVector.take index ++ s.mVector.drop (index + 1),
          isChanged := true }) := by
  rw [RemoveAt_eq, if_neg hfs, if_neg (Nat.not_le.mpr h)]

theorem Append_fixed {T : Type} (s : Vector T) (item : T)
    (hfs : s.isFixedSize = true) :
    Vector.Append s item = (.E_NOTIMPL, s) := by
  rw [Append_eq, if_pos hfs]

theorem Append_ok {T : Type} (s : Vector T) (item : T)
    (hfs : ¬ s.isFixedSize = true) :
    Vector.Append s item
      = (.S_OK, { s with mVector := s.mVector ++ [item],
                         isChanged := true }) := by
  rw [Append_eq, if_neg hfs]

theorem RemoveAtEnd_fixed {T : Type} (s : Vector T)
    (hfs : s.isFixedSize = true) :
    Vector.RemoveAtEnd s = (.E_NOTIMPL, s) := by
  rw [RemoveAtEnd_eq, if_pos hfs]

theorem RemoveAtEnd_oob {T : Type} (s : Vector T)
    (hfs : ¬ s.isFixedSize = true)
    (h : usub1 s.mVector.length ≥ s.mVector.length) :
    Vector.RemoveAtEnd s = (.E_BOUNDS, s) := by
  rw [RemoveAtEnd_eq, if_neg hfs, if_pos h]

theorem RemoveAtEnd_ok {T : Type} (s : Vector T)
    (hfs : ¬ s.isFixedSize = true)
    (h : usub1 s.mVector.length < s.mVector.length) :
    Vector.RemoveAtEnd s
      = (.S_OK, { s with
          mVector := s.mVector.take (usub1 s.mVector.length)
            ++ s.mVector.drop (usub1 s.mVector.length + 1),
          isChanged := true }) := by
  rw [RemoveAtEnd_eq, if_neg hfs, if_neg (Nat.not_le.mpr h)]

theorem Clear_fixed {T : Type} (s : Vector T) (hfs : s.isFixedSize = true) :
    Vector.Clear s = (.E_NOTIMPL, s) := by
  rw [Clear_eq, if_pos hfs]

theorem Clear_ok {T : Type} (s : Vector T) (hfs : ¬ s.isFixedSize = true) :
    Vector.Clear s
      = (.S_OK, { s with mVector := [], isChanged := true }) := by
  rw [Clear_eq, if_neg hfs]

theorem GetAt_oob {T : Type} (zeroV : T) (s : Vector T) (index : Nat)
    (itemOut : T) (h : index ≥ s.mVector.length) :
    Vector.GetAt zeroV s index itemOut = (.E_BOUNDS, s, zeroV) := by
  rw [GetAt_eq, dif_neg (Nat.not_lt.mpr h)]

theorem GetAt_ok {T : Type} (zeroV : T) (s : Vector T) (index : Nat)
    (itemOut : T) (h : index < s.mVector.length) :
    Vector.GetAt zeroV s index itemOut
      = (.S_OK, s, s.mVector.get ⟨index, h⟩) := by
  rw [GetAt_eq, dif_pos h]

theorem MoveNext_oob {T : Type} (s : Vector T) (mPosition : Nat)
    (hasCurrentOut : Bool) (h : mPosition ≥ s.mVector.length) :
    VectorIterator.MoveNext s mPosition hasCurrentOut
      = (.E_BOUNDS, mPosition, hasCurrentOut) := by
  rw [MoveNext_eq, if_pos h]

theorem MoveNext_ok {T : Type} (s : Vector T) (mPosition : Nat)
    (hasCurrentOut : Bool) (h : mPosition < s.mVector.length) :
    VectorIterator.MoveNext s mPosition hasCurrentOut
      = (.S_OK, mPosition + 1, decide (mPosition + 1 < s.mVector.length)) := by
  rw [MoveNext_eq, if_neg (Nat.not_le.mpr h)]

/-! ### Claim theorems -/

/-- Claim C7: the boundary converts internal faults to statuses instead
of letting an exception escape — a completed body yields `S_OK`, an
`HResultException` yields its HRESULT verbatim, `bad_alloc` yields
`E_OUTOFMEMORY`, and any other exception yields `E_UNEXPECTED`. -/
theorem C7_exception_boundary {σ : Type} (s : σ) (hr : HResult) :
    ExceptionBoundary (s, (none : Option CppException)) = (.S_OK, s) ∧
    ExceptionBoundary (s, some (CppException.hres hr)) = (hr, s) ∧
    ExceptionBoundary (s, some CppException.badAlloc) = (.E_OUTOFMEMORY, s) ∧
    ExceptionBoundary (s, some CppException.other) = (.E_UNEXPECTED, s) :=
  ⟨rfl, rfl, rfl, rfl⟩

/-- Claim C2: on a non-fixed-size empty vector `RemoveAtEnd` fails with
`E_BOUNDS` and changes nothing: it is `RemoveAt(GetSize() - 1)`, the
unsigned `0 - 1` wraps to `2^32 - 1`, and the `index >= size` bounds
check rejects that index; on a fixed-size vector the `E_NOTIMPL` check
comes first, regardless of emptiness. -/
theorem C2_removeLast_empty {T : Type} (s : Vector T) :
    (s.isFixedSize = false → s.mVector = [] →
      Vector.RemoveAtEnd s = (.E_BOUNDS, s)) ∧
    (s.isFixedSize = true → Vector.RemoveAtEnd s = (.E_NOTIMPL, s)) ∧
    usub1 (DefaultVectorTraits.GetSize ([] : List T)) = 4294967295 ∧
    DefaultVectorTraits.RemoveAt ([] : List T) 4294967295
      = .error (.hres .E_BOUNDS) := by
  refine ⟨?_, ?_, ?_, ?_⟩
  · intro hnf hemp
    have h0 : usub1 s.mVector.length ≥ s.mVector.length := by
      rw [hemp]
      exact Nat.zero_le _
    exact RemoveAtEnd_oob s (not_fixed s hnf) h0
  · intro hfs
    exact RemoveAtEnd_fixed s hfs
  · show (0 + 4294967295) % 4294967296 = 4294967295
    norm_num
  · rfl

/-- Claim C2 witness: concrete empty vectors, resizable and fixed. -/
theorem C2_removeLast_empty_witness :
    Vector.RemoveAtEnd (⟨[], false, false⟩ : Vector Nat)
      = (.E_BOUNDS, (⟨[], false, false⟩ : Vector Nat)) ∧
    Vector.RemoveAtEnd (⟨[], true, false⟩ : Vector Nat)
      = (.E_NOTIMPL, (⟨[], true, false⟩ : Vector Nat)) :=
  ⟨(C2_removeLast_empty (⟨[], false, false⟩ : Vector Nat)).1 rfl rfl,
   (C2_removeLast_empty (⟨[], true, false⟩ : Vector Nat)).2.1 rfl⟩

/-- Claim C1: on a fixed-size vector the size never changes after
construction — `InsertAt`, `RemoveAt`, `Append`, `RemoveAtEnd` and
`Clear` each fail with `E_NOTIMPL` leaving the whole state unchanged,
while `SetAt` at a valid index and `ReplaceAll` with `count` equal to
the current size still succeed and preserve the size. -/
theorem C1_fixed_size_invariant {T : Type} (s : Vector T)
    (hfs : s.isFixedSize = true) (index : Nat) (item : T) (count : Nat)
    (values : Nat → T) :
    Vector.InsertAt s index item = (.E_NOTIMPL, s) ∧
    Vector.RemoveAt s index = (.E_NOTIMPL, s) ∧
    Vector.Append s item = (.E_NOTIMPL, s) ∧
    Vector.RemoveAtEnd s = (.E_NOTIMPL, s) ∧
    Vector.Clear s = (.E_NOTIMPL, s) ∧
    (index < DefaultVectorTraits.GetSize s.mVector →
      (Vector.SetAt s index item).1 = .S_OK ∧
      DefaultVectorTraits.GetSize (Vector.SetAt s index item).2.mVector
        = DefaultVectorTraits.GetSize s.mVector) ∧
    (count = DefaultVectorTraits.GetSize s.mVector →
      (Vector.ReplaceAll s count values).1 = .S_OK ∧
      DefaultVectorTraits.GetSize (Vector.ReplaceAll s count values).2.mVector
        = DefaultVectorTraits.GetSize s.mVector) := by
  refine ⟨InsertAt_fixed s index item hfs, RemoveAt_fixed s index hfs,
    Append_fixed s item hfs, RemoveAtEnd_fixed s hfs, Clear_fixed s hfs,
    ?_, ?_⟩
  · intro hidx
    have hidx2 : index < s.mVector.length := hidx
    constructor
    · rw [SetAt_ok s index item hidx2]
    · rw [SetAt_ok s index item hidx2]
      show (s.mVector.set index item).length = s.mVector.length
      exact List.length_set s.mVector index item
  · intro hc
    have hc2 : count = s.mVector.length := hc
    obtain ⟨_, h2, _⟩ := ReplaceAllSetLoop_ok values count 0 s.mVector
      (by rw [Nat.zero_add]; exact Nat.le_of_eq hc2)
    constructor
    · rw [ReplaceAll_eq_count_eq s count values hc2]
    · rw [ReplaceAll_eq_count_eq s count values hc2]
      exact h2

/-- Claim C1 witness: a concrete fixed-size vector of size 2. -/
theorem C1_fixed_size_invariant_witness :
    Vector.Clear (⟨[3, 4], true, false⟩ : Vector Nat)
      = (.E_NOTIMPL, (⟨[3, 4], true, false⟩ : Vector Nat)) ∧
    (Vector.SetAt (⟨[3, 4], true, false⟩ : Vector Nat) 0 9).1 = .S_OK ∧
    (Vector.ReplaceAll (⟨[3, 4], true, false⟩ : Vector Nat) 2 (fun _ => 7)).1
      = .S_OK := by
  have h := C1_fixed_size_invariant (⟨[3, 4], true, false⟩ : Vector Nat)
    rfl 0 9 2 (fun _ => 7)
  exact ⟨h.2.2.2.2.1, (h.2.2.2.2.2.1 (by decide)).1,
    (h.2.2.2.2.2.2 (by decide)).1⟩

/-- Claim C10: each single-step mutator (`SetAt`, `InsertAt`,
`RemoveAt`, `Append`, `RemoveAtEnd`, `Clear`) sets `isChanged` only
after the storage operation has succeeded; on any failure the whole
state (buffer and flags) is exactly as before the call. -/
theorem C10_changed_flag {T : Type} (s : Vector T) (index : Nat) (item : T) :
    ((Vector.SetAt s index item).1 ≠ .S_OK → (Vector.SetAt s index item).2 = s) ∧
    ((Vector.SetAt s index item).1 = .S_OK →
      (Vector.SetAt s index item).2.isChanged = true) ∧
    ((Vector.InsertAt s index item).1 ≠ .S_OK →
      (Vector.InsertAt s index item).2 = s) ∧
    ((Vector.InsertAt s index item).1 = .S_OK →
      (Vector.InsertAt s index item).2.isChanged = true) ∧
    ((Vector.RemoveAt s index).1 ≠ .S_OK → (Vector.RemoveAt s index).2 = s) ∧
    ((Vector.RemoveAt s index).1 = .S_OK →
      (Vector.RemoveAt s index).2.isChanged = true) ∧
    ((Vector.Append s item).1 ≠ .S_OK → (Vector.Append s item).2 = s) ∧
    ((Vector.Append s item).1 = .S_OK →
      (Vector.Append s item).2.isChanged = true) ∧
    ((Vector.RemoveAtEnd s).1 ≠ .S_OK → (Vector.RemoveAtEnd s).2 = s) ∧
    ((Vector.RemoveAtEnd s).1 = .S_OK →
      (Vector.RemoveAtEnd s).2.isChanged = true) ∧
    ((Vector.Clear s).1 ≠ .S_OK → (Vector.Clear s).2 = s) ∧
    ((Vector.Clear s).1 = .S_OK → (Vector.Clear s).2.isChanged = true) := by
  refine ⟨?_, ?_, ?_, ?_, ?_, ?_, ?_, ?_, ?_, ?_, ?_, ?_⟩
  · intro hne
    by_cases h : index ≥ s.mVector.length
    · rw [SetAt_oob s index item h]
    · rw [SetAt_ok s index item (Nat.lt_of_not_le h)] at hne
      exact absurd rfl hne
  · intro heq
    by_cases h : index ≥ s.mVector.length
    · rw [SetAt_oob s index item h] at heq
      exact HResult.noConfusion heq
    · rw [SetAt_ok s index item (Nat.lt_of_not_le h)]
  · intro hne
    by_cases hf : s.isFixedSize
    · rw [InsertAt_fixed s index item hf]
    · by_cases h : index > s.mVector.length
      · rw [InsertAt_oob s index item hf h]
      · rw [InsertAt_ok s index item hf (Nat.le_of_not_lt h)] at hne
        exact absurd rfl hne
  · intro heq
    by_cases hf : s.isFixedSize
    · rw [InsertAt_fixed s index item hf] at heq
      exact HResult.noConfusion heq
    · by_cases h : index > s.mVector.length
      · rw [InsertAt_oob s index item hf h] at heq
        exact HResult.noConfusion heq
      · rw [InsertAt_ok s index item hf (Nat.le_of_not_lt h)]
  · intro hne
    by_cases hf : s.isFixedSize
    · rw [RemoveAt_fixed s index hf]
    · by_cases h : index ≥ s.mVector.length
      · rw [RemoveAt_oob s index hf h]
      · rw [RemoveAt_ok s index hf (Nat.lt_of_not_le h)] at hne
        exact absurd rfl hne
  · intro heq
    by_cases hf : s.isFixedSize
    · rw [RemoveAt_fixed s index hf] at heq
      exact HResult.noConfusion heq
    · by_cases h : index ≥ s.mVector.length
      · rw [RemoveAt_oob s index hf h] at heq
        exact HResult.noConfusion heq
      · rw [RemoveAt_ok s index hf (Nat.lt_of_not_le h)]
  · intro hne
    by_cases hf : s.isFixedSize
    · rw [Append_fixed s item hf]
    · rw [Append_ok s item hf] at hne
      exact absurd rfl hne
  · intro heq
    by_cases hf : s.isFixedSize
    · rw [Append_fixed s item hf] at heq
      exact HResult.noConfusion heq
    · rw [Append_ok s item hf]
  · intro hne
    by_cases hf : s.isFixedSize
    · rw [RemoveAtEnd_fixed s hf]
    · by_cases h : usub1 s.mVector.length ≥ s.mVector.length
      · rw [RemoveAtEnd_oob s hf h]
      · rw [RemoveAtEnd_ok s hf (Nat.lt_of_not_le h)] at hne
        exact absurd rfl hne
  · intro heq
    by_cases hf : s.isFixedSize
    · rw [RemoveAtEnd_fixed s hf] at heq
      exact HResult.noConfusion heq
    · by_cases h : usub1 s.mVector.length ≥ s.mVector.length
      · rw [RemoveAtEnd_oob s hf h] at heq
        exact HResult.noConfusion heq
      · rw [RemoveAtEnd_ok s hf (Nat.lt_of_not_le h)]
  · intro hne
    by_cases hf : s.isFixedSize
    · rw [Clear_fixed s hf]
    · rw [Clear_ok s hf] at hne
      exact absurd rfl hne
  · intro heq
    by_cases hf : s.isFixedSize
    · rw [Clear_fixed s hf] at heq
      exact HResult.noConfusion heq
    · rw [Clear_ok s hf]

/-- A buffer whose slot `k` holds `v` makes the boundary `GetAt` at `k`
succeed with output `v`. -/
theorem GetAt_of_getElem? {T : Type} (zeroV itemOut : T) (s : Vector T)
    (k : Nat) (v : T) (h : s.mVector[k]? = some v) :
    Vector.GetAt zeroV s k itemOut = (.S_OK, s, v) := by
  have hk : k < s.mVector.length := by
    by_contra hk
    rw [List.getElem?_eq_none (Nat.le_of_not_lt hk)] at h
    exact Option.noConfusion h
  have h4 : s.mVector[k]? = some (s.mVector.get ⟨k, hk⟩) := by
    rw [List.getElem?_eq_getElem hk, List.get_eq_getElem]
  rw [h] at h4
  have hv : s.mVector.get ⟨k, hk⟩ = v := ((Option.some.injEq _ _).mp h4).symm
  rw [GetAt_eq, dif_pos hk, hv]

/-- Claim C4: `ReplaceAll(count, values)` with `count` equal to the
current size does `count` in-place sets, keeps the size, and succeeds
regardless of `isFixedSize`; with a different `count` it fails with
`E_NOTIMPL` on a fixed-size vector and otherwise clears and appends all
`count` values, so the new size is `count` and `GetAt k` returns
`values k` for every `k < count`; every success sets `isChanged`. -/
theorem C4_replaceAll {T : Type} (zeroV : T) (s : Vector T) (count : Nat)
    (values : Nat → T) (itemOut : T) :
    (count = DefaultVectorTraits.GetSize s.mVector →
      (Vector.ReplaceAll s count values).1 = .S_OK ∧
      (Vector.ReplaceAll s count values).2.isChanged = true ∧
      DefaultVectorTraits.GetSize (Vector.ReplaceAll s count values).2.mVector
        = DefaultVectorTraits.GetSize s.mVector ∧
      ∀ k, k < count →
        Vector.GetAt zeroV (Vector.ReplaceAll s count values).2 k itemOut
          = (.S_OK, (Vector.ReplaceAll s count values).2, values k)) ∧
    (count ≠ DefaultVectorTraits.GetSize s.mVector → s.isFixedSize = true →
      Vector.ReplaceAll s count values = (.E_NOTIMPL, s)) ∧
    (count ≠ DefaultVectorTraits.GetSize s.mVector → s.isFixedSize = false →
      (Vector.ReplaceAll s count values).1 = .S_OK ∧
      (Vector.ReplaceAll s count values).2.isChanged = true ∧
      DefaultVectorTraits.GetSize (Vector.ReplaceAll s count values).2.mVector
        = count ∧
      ∀ k, k < count →
        Vector.GetAt zeroV (Vector.ReplaceAll s count values).2 k itemOut
          = (.S_OK, (Vector.ReplaceAll s count values).2, values k)) := by
  refine ⟨?_, ?_, ?_⟩
  · intro hc
    have hc2 : count = s.mVector.length := hc
    obtain ⟨_, h2, h3⟩ := ReplaceAllSetLoop_ok values count 0 s.mVector
      (by rw [Nat.zero_add]; exact Nat.le_of_eq hc2)
    rw [ReplaceAll_eq_count_eq s count values hc2]
    refine ⟨rfl, rfl, h2, ?_⟩
    intro k hk
    apply GetAt_of_getElem?
    rw [h3 k, if_pos ⟨Nat.zero_le k, by rw [Nat.zero_add]; exact hk⟩]
  · intro hc hfs
    exact ReplaceAll_eq_fixed s count values hc hfs
  · intro hc hfs
    rw [ReplaceAll_eq_resize s count values hc hfs]
    refine ⟨rfl, rfl, ?_, ?_⟩
    · show ((List.range count).map values).length = count
      rw [List.length_map, List.length_range]
    · intro k hk
      apply GetAt_of_getElem?
      show ((List.range count).map values)[k]? = some (values k)
      rw [List.getElem?_map, List.getElem?_range hk]
      rfl

/-- Claim C4 witness: in-place replacement on a size-2 vector and
resizing replacement from size 2 to size 3. -/
theorem C4_replaceAll_witness :
    (Vector.ReplaceAll (⟨[3, 4], false, false⟩ : Vector Nat) 2 (fun k => k + 10)).1
      = .S_OK ∧
    Vector.GetAt 0
      (Vector.ReplaceAll (⟨[3, 4], false, false⟩ : Vector Nat) 2
        (fun k => k + 10)).2 1 5
      = (.S_OK,
        (Vector.ReplaceAll (⟨[3, 4], false, false⟩ : Vector Nat) 2
          (fun k => k + 10)).2, 11) ∧
    DefaultVectorTraits.GetSize
      (Vector.ReplaceAll (⟨[3, 4], false, false⟩ : Vector Nat) 3
        (fun k => k + 10)).2.mVector = 3 := by
  have h1 := C4_replaceAll (0 : Nat) (⟨[3, 4], false, false⟩ : Vector Nat) 2
    (fun k => k + 10) 5
  have h2 := C4_replaceAll (0 : Nat) (⟨[3, 4], false, false⟩ : Vector Nat) 3
    (fun k => k + 10) 5
  exact ⟨(h1.1 (by decide)).1, (h1.1 (by decide)).2.2.2 1 (by decide),
    (h2.2.2 (by decide) rfl).2.2.1⟩

/-- Claim C6: on a resizable vector, `InsertAt` at index `size` is the
same operation as `Append` (same status, same resulting state), and the
bounds conditions are: `InsertAt` fails with `E_BOUNDS` exactly when
`index > size` while `GetAt`, `SetAt` and `RemoveAt` fail with
`E_BOUNDS` exactly when `index ≥ size`. -/
theorem C6_insertAt_append {T : Type} (zeroV : T) (s : Vector T) (v : T)
    (index : Nat) (itemOut : T) (hnf : s.isFixedSize = false) :
    Vector.InsertAt s (DefaultVectorTraits.GetSize s.mVector) v
      = Vector.Append s v ∧
    ((Vector.InsertAt s index v).1 = .E_BOUNDS
      ↔ index > DefaultVectorTraits.GetSize s.mVector) ∧
    ((Vector.GetAt zeroV s index itemOut).1 = .E_BOUNDS
      ↔ index ≥ DefaultVectorTraits.GetSize s.mVector) ∧
    ((Vector.SetAt s index v).1 = .E_BOUNDS
      ↔ index ≥ DefaultVectorTraits.GetSize s.mVector) ∧
    ((Vector.RemoveAt s index).1 = .E_BOUNDS
      ↔ index ≥ DefaultVectorTraits.GetSize s.mVector) := by
  refine ⟨?_, ?_, ?_, ?_, ?_⟩
  · rw [InsertAt_ok s (DefaultVectorTraits.GetSize s.mVector) v
      (not_fixed s hnf) (Nat.le_refl _), Append_ok s v (not_fixed s hnf),
      show DefaultVectorTraits.GetSize s.mVector = s.mVector.length from rfl,
      List.take_length, List.drop_length]
  · by_cases h : index > s.mVector.length
    · rw [InsertAt_oob s index v (not_fixed s hnf) h]
      exact iff_of_true rfl h
    · rw [InsertAt_ok s index v (not_fixed s hnf) (Nat.le_of_not_lt h)]
      exact iff_of_false (fun hc => HResult.noConfusion hc) h
  · by_cases h : index < s.mVector.length
    · rw [GetAt_ok zeroV s index itemOut h]
      exact iff_of_false (fun hc => HResult.noConfusion hc) (Nat.not_le.mpr h)
    · rw [GetAt_oob zeroV s index itemOut (Nat.le_of_not_lt h)]
      exact iff_of_true rfl (Nat.le_of_not_lt h)
  · by_cases h : index ≥ s.mVector.length
    · rw [SetAt_oob s index v h]
      exact iff_of_true rfl h
    · rw [SetAt_ok s index v (Nat.lt_of_not_le h)]
      exact iff_of_false (fun hc => HResult.noConfusion hc) h
  · by_cases h : index ≥ s.mVector.length
    · rw [RemoveAt_oob s index (not_fixed s hnf) h]
      exact iff_of_true rfl h
    · rw [RemoveAt_ok s index (not_fixed s hnf) (Nat.lt_of_not_le h)]
      exact iff_of_false (fun hc => HResult.noConfusion hc) h

/-- Claim C6 witness: on `[3, 4]`, inserting at index 2 equals append,
index 3 is out of bounds for insert, index 2 is out of bounds for get. -/
theorem C6_insertAt_append_witness :
    Vector.InsertAt (⟨[3, 4], false, false⟩ : Vector Nat) 2 9
      = Vector.Append (⟨[3, 4], false, false⟩ : Vector Nat) 9 ∧
    (Vector.InsertAt (⟨[3, 4], false, false⟩ : Vector Nat) 3 9).1 = .E_BOUNDS ∧
    (Vector.GetAt 0 (⟨[3, 4], false, false⟩ : Vector Nat) 2 5).1 = .E_BOUNDS := by
  have h2 := C6_insertAt_append 0 (⟨[3, 4], false, false⟩ : Vector Nat) 9 3 5 rfl
  have h3 := C6_insertAt_append 0 (⟨[3, 4], false, false⟩ : Vector Nat) 9 2 5 rfl
  exact ⟨h3.1, h2.2.1.mpr (by decide), h3.2.2.1.mpr (by decide)⟩

/-- Claim C5: `get_HasCurrent` reports `position < size` against the
live vector, `MoveNext` fails with `E_BOUNDS` when `position ≥ size`
and otherwise increments the position by exactly 1 and returns the new
`hasCurrent`; the size is re-read on every call, so appending to an
vector under an exhausted iterator makes `hasCurrent` true again. -/
theorem C5_iterator_live {T : Type} (s : Vector T) (pos : Nat) (stale : Bool)
    (item : T) :
    VectorIterator.get_HasCurrent s pos stale
      = (.S_OK, decide (pos < DefaultVectorTraits.GetSize s.mVector)) ∧
    (pos ≥ DefaultVectorTraits.GetSize s.mVector →
      VectorIterator.MoveNext s pos stale = (.E_BOUNDS, pos, stale)) ∧
    (pos < DefaultVectorTraits.GetSize s.mVector →
      VectorIterator.MoveNext s pos stale
        = (.S_OK, pos + 1, (VectorIterator.get_HasCurrent s (pos + 1) stale).2)) ∧
    (s.isFixedSize = false → pos = DefaultVectorTraits.GetSize s.mVector →
      (VectorIterator.get_HasCurrent (Vector.Append s item).2 pos stale).2
        = true) := by
  refine ⟨rfl, ?_, ?_, ?_⟩
  · intro h
    exact MoveNext_oob s pos stale h
  · intro h
    exact MoveNext_ok s pos stale h
  · intro hnf hpos
    rw [Append_ok s item (not_fixed s hnf)]
    show decide (pos < (s.mVector ++ [item]).length) = true
    apply decide_eq_true
    rw [List.length_append, hpos]
    exact Nat.lt_succ_of_le (Nat.le_refl _)

/-- Claim C5 witness: concrete iterator over `[3, 4]` at positions 1
and 2, and the liveness of `hasCurrent` after an append at position 2. -/
theorem C5_iterator_live_witness :
    VectorIterator.MoveNext (⟨[3, 4], false, false⟩ : Vector Nat) 1 true
      = (.S_OK, 2, false) ∧
    VectorIterator.MoveNext (⟨[3, 4], false, false⟩ : Vector Nat) 2 true
      = (.E_BOUNDS, 2, true) ∧
    (VectorIterator.get_HasCurrent
      (Vector.Append (⟨[3, 4], false, false⟩ : Vector Nat) 9).2 2 true).2
      = true := by
  have h := C5_iterator_live (⟨[3, 4], false, false⟩ : Vector Nat) 1 true 9
  have h2 := C5_iterator_live (⟨[3, 4], false, false⟩ : Vector Nat) 2 true 9
  exact ⟨h.2.2.1 (by decide), h2.2.1 (by decide),
    h2.2.2.2 rfl (by decide)⟩

/-- The `IndexOf` scan returns, relative to start counter `i`, the
offset of the first element equal to `value` with `found = true`, or
`(0, false)` when no element matches. -/
theorem IndexOfLoop_spec {T : Type} [DecidableEq T] (value : T) :
    ∀ (l : List T) (i : Nat),
      ((Vector.IndexOfLoop value l i).2 = true →
        ∃ j : Nat, (Vector.IndexOfLoop value l i).1 = i + j ∧
          l[j]? = some value ∧
          ∀ m : Nat, m < j → l[m]? ≠ some value) ∧
      ((Vector.IndexOfLoop value l i).2 = false →
        (Vector.IndexOfLoop value l i).1 = 0 ∧
        ∀ m : Nat, l[m]? ≠ some value) := by
  intro l
  induction l with
  | nil =>
    intro i
    constructor
    · intro h
      exact Bool.noConfusion h
    · intro _
      exact ⟨rfl, fun m he =>
        Option.noConfusion ((List.getElem?_nil).symm.trans he)⟩
  | cons x xs ih =>
    intro i
    by_cases hx : x = value
    · have hloop : Vector.IndexOfLoop value (x :: xs) i = (i, true) := by
        conv_lhs => unfold Vector.IndexOfLoop
        rw [if_pos (show ElementTraits.Equals x value = true from
          decide_eq_true hx)]
      rw [hloop]
      constructor
      · intro _
        refine ⟨0, (Nat.add_zero i).symm, ?_,
          fun m hm => absurd hm (Nat.not_lt_zero m)⟩
        rw [List.getElem?_cons_zero, hx]
      · intro h
        exact Bool.noConfusion h
    · have hloop : Vector.IndexOfLoop value (x :: xs) i
          = Vector.IndexOfLoop value xs (i + 1) := by
        conv_lhs => unfold Vector.IndexOfLoop
        rw [if_neg (show ¬ElementTraits.Equals x value = true from
          fun he => hx (of_decide_eq_true he))]
      rw [hloop]
      obtain ⟨ih1, ih2⟩ := ih (i + 1)
      constructor
      · intro h
        obtain ⟨j, hj1, hj2, hj3⟩ := ih1 h
        refine ⟨j + 1, hj1.trans (Nat.succ_add i j), ?_, ?_⟩
        · exact (List.getElem?_cons_succ).trans hj2
        · intro m hm
          cases m with
          | zero =>
            intro he
            exact hx (Option.some.inj ((List.getElem?_cons_zero).symm.trans he))
          | succ m =>
            intro he
            exact hj3 m (Nat.lt_of_succ_lt_succ hm)
              ((List.getElem?_cons_succ).symm.trans he)
      · intro h
        obtain ⟨h1, h2⟩ := ih2 h
        refine ⟨h1, ?_⟩
        intro m
        cases m with
        | zero =>
          intro he
          exact hx (Option.some.inj ((List.getElem?_cons_zero).symm.trans he))
        | succ m =>
          intro he
          exact h2 m ((List.getElem?_cons_succ).symm.trans he)

/-- Claim C8: `IndexOf` scans from index 0 with the element-strategy
equality, returning the first matching index with `found = true`; if no
element matches (in particular on an empty vector) it returns
`found = false` and `index = 0`; it never fails and never mutates. -/
theorem C8_indexOf {T : Type} [DecidableEq T] (s : Vector T) (value : T)
    (indexOut : Nat) (foundOut : Bool) :
    (Vector.IndexOf s value indexOut foundOut).1 = .S_OK ∧
    (Vector.IndexOf s value indexOut foundOut).2.1 = s ∧
    ((Vector.IndexOf s value indexOut foundOut).2.2.2 = true →
      s.mVector[(Vector.IndexOf s value indexOut foundOut).2.2.1]? = some value ∧
      ∀ m : Nat, m < (Vector.IndexOf s value indexOut foundOut).2.2.1 →
        s.mVector[m]? ≠ some value) ∧
    ((Vector.IndexOf s value indexOut foundOut).2.2.2 = false →
      (Vector.IndexOf s value indexOut foundOut).2.2.1 = 0 ∧
      ∀ m : Nat, s.mVector[m]? ≠ some value) ∧
    (s.mVector = [] →
      (Vector.IndexOf s value indexOut foundOut).2.2 = (0, false)) := by
  obtain ⟨h1, h2⟩ := IndexOfLoop_spec value s.mVector 0
  rw [IndexOf_eq]
  refine ⟨rfl, rfl, ?_, ?_, ?_⟩
  · intro h
    obtain ⟨j, hj1, hj2, hj3⟩ := h1 h
    have hj0 : j = (Vector.IndexOfLoop value s.mVector 0).1 :=
      (hj1.trans (Nat.zero_add j)).symm
    subst hj0
    exact ⟨hj2, hj3⟩
  · intro h
    exact h2 h
  · intro h
    rw [h]
    rfl

/-- Claim C8 witness: on `[5, 7, 7]` the index reported for the value 7
holds a 7; on the empty vector the query yields `(0, false)`. -/
theorem C8_indexOf_witness :
    ([5, 7, 7] : List Nat)[(Vector.IndexOf
      (⟨[5, 7, 7], false, false⟩ : Vector Nat) 7 6 true).2.2.1]? = some 7 ∧
    (Vector.IndexOf (⟨[], false, false⟩ : Vector Nat) 7 6 true).2.2
      = (0, false) := by
  have h := C8_indexOf (⟨[5, 7, 7], false, false⟩ : Vector Nat) 7 6 true
  have h2 := C8_indexOf (⟨[], false, false⟩ : Vector Nat) 7 6 true
  exact ⟨(h.2.2.1 (by decide)).1, h2.2.2.2.2 rfl⟩

/-- Claim C10 witness: a failing `SetAt` (out of bounds) leaves the
state untouched; a succeeding `Append` sets the changed flag. -/
theorem C10_changed_flag_witness :
    (Vector.SetAt (⟨[3], false, false⟩ : Vector Nat) 5 9).2
      = (⟨[3], false, false⟩ : Vector Nat) ∧
    (Vector.Append (⟨[3], false, false⟩ : Vector Nat) 9).2.isChanged = true := by
  have h := C10_changed_flag (⟨[3], false, false⟩ : Vector Nat) 5 9
  exact ⟨h.1 (by decide), h.2.2.2.2.2.2.2.1 (by decide)⟩

/-- Claim C3 counterexample: `MoveNext` on an empty vector (position 0,
caller variable previously holding `true`) fails with `E_BOUNDS` yet
leaves the output at its stale value `true` — it was never zeroed, so
the claim that every failing boundary operation zeroes its output
parameters before the body runs is false for `moveNext`. -/
theorem C3_counterexample :
    (VectorIterator.MoveNext (⟨[], false, false⟩ : Vector Nat) 0 true).1
      = .E_BOUNDS ∧
    (VectorIterator.MoveNext (⟨[], false, false⟩ : Vector Nat) 0 true).2.2
      = true ∧
    ¬((VectorIterator.MoveNext (⟨[], false, false⟩ : Vector Nat) 0 true).2.2
      = false) := by
  decide

/-- Claim C3 amended: `GetAt` zeroes its output before the fallible
access and `GetView`/`First` null theirs, so those three report the
zeroed/cleared value on failure; `IndexOf` initializes its outputs
before scanning and (like `get_Size` and `get_HasCurrent`) cannot fail
with valid pointers; but `MoveNext` writes its output only after its
bounds check, so on an `E_BOUNDS` failure the caller observes the
prior, stale value of the output. -/
theorem C3_failure_outputs {T : Type} [DecidableEq T] (zeroV : T)
    (s : Vector T) (index pos : Nat) (staleT : T) (staleView : Option Unit)
    (staleIter : Option Nat) (staleB : Bool) (staleN staleI : Nat)
    (staleF : Bool) (value : T) :
    ((Vector.GetAt zeroV s index staleT).1 ≠ .S_OK →
      (Vector.GetAt zeroV s index staleT).2.2 = zeroV) ∧
    (Vector.GetView s true staleView).2.2 = none ∧
    (Vector.First s true staleIter).2.2 = none ∧
    (Vector.get_Size s staleN).1 = .S_OK ∧
    (Vector.IndexOf s value staleI staleF).1 = .S_OK ∧
    (VectorIterator.get_HasCurrent s pos staleB).1 = .S_OK ∧
    ((VectorIterator.MoveNext s pos staleB).1 ≠ .S_OK →
      (VectorIterator.MoveNext s pos staleB).2.2 = staleB ∧
      (VectorIterator.MoveNext s pos staleB).2.1 = pos) := by
  refine ⟨?_, ?_, ?_, rfl, rfl, rfl, ?_⟩
  · intro h
    by_cases hk : index < s.mVector.length
    · rw [GetAt_ok zeroV s index staleT hk] at h
      exact absurd rfl h
    · rw [GetAt_oob zeroV s index staleT (Nat.le_of_not_lt hk)]
  · rw [GetView_eq]
    rfl
  · rw [First_eq]
    rfl
  · intro h
    by_cases hk : pos ≥ s.mVector.length
    · rw [MoveNext_oob s pos staleB hk]
      exact ⟨rfl, rfl⟩
    · rw [MoveNext_ok s pos staleB (Nat.lt_of_not_le hk)] at h
      exact absurd rfl h

/-- Claim C3 amended witness: a failing `GetAt` reports the zero value
in place of the stale one, while a failing `MoveNext` reports the stale
one. -/
theorem C3_failure_outputs_witness :
    (Vector.GetAt 0 (⟨[], false, false⟩ : Vector Nat) 4 9).2.2 = 0 ∧
    (VectorIterator.MoveNext (⟨[], false, false⟩ : Vector Nat) 4 true).2.2
      = true := by
  have h := C3_failure_outputs (0 : Nat) (⟨[], false, false⟩ : Vector Nat)
    4 4 9 none none true 0 0 false 0
  exact ⟨h.1 (by decide), (h.2.2.2.2.2.2 (by decide)).1⟩

end borrowed
